import Mathlib

/-!
Verification of `punnet.py`, a Punnett-square generator.

Python strings are embedded as `List Char` (code-point lexicographic order on
`List Char` coincides with Python string comparison).  The single class
`PunnetGenerator` carries no state besides a debug flag that only controls
logging, so its methods are embedded as plain functions.  Exceptions
(`raise ValueError`) are embedded with `Except PunnetError`; each constructor
of `PunnetError` is one distinct `ValueError` message of the source.
-/

namespace Punnet

/-- The whitespace predicate of Python `str.strip` (space, tab, newline,
carriage return, vertical tab, form feed). -/
def pyIsSpace (c : Char) : Bool :=
  c == ' ' || c == '\t' || c == '\n' || c == '\r' || c == Char.ofNat 11 || c == Char.ofNat 12

/-- Python `s.strip()`: drop whitespace from both ends. -/
def pyStrip (s : List Char) : List Char :=
  ((s.dropWhile pyIsSpace).reverse.dropWhile pyIsSpace).reverse

/-- Source line `[list(geno[i:i + 2]) for i in range(0, len(geno), 2)]`:
split into 2-character loci.  Callers only apply it to even-length lists,
where every chunk is a full pair. -/
def chunk2 : List Char → List (Char × Char)
  | a :: b :: rest => (a, b) :: chunk2 rest
  | _ => []

/-- Source helper `_is_even`. -/
def is_even (n : Nat) : Bool := n % 2 == 0

/-- Source helper `_flip`.  Its argument is always 0 or 1 (it raises
otherwise, and every stored counter value starts at 0 or 1 and is only
changed by `_flip` itself), so the pair entries are embedded as `Bool`
with 1 ↦ `true`, 0 ↦ `false`, and `_flip` is negation. -/
def flip (b : Bool) : Bool := !b

/-- The inner selection loop of `_generate_headers` for one locus:
`for j in array: if array[j] == 1: term += gametes[i][j]`.
The loop iterates over the two stored values of `array` and uses each value
`j` as an index back into `array` and into the locus pair. -/
def selectChars (arr : Bool × Bool) (g : Char × Char) : List Char :=
  [arr.1, arr.2].foldl
    (fun acc j =>
      if (if j then arr.2 else arr.1) then acc ++ [if j then g.2 else g.1] else acc)
    []

/-- One `term` of `_generate_headers`: the loop
`for i, array in enumerate(counters)` selecting one allele per locus.
`counters` always has the same length as `gametes`. -/
def buildTerm (gametes : List (Char × Char)) (counters : List (Bool × Bool)) : List Char :=
  (List.zip gametes counters).foldl (fun acc gc => acc ++ selectChars gc.2 gc.1) []

/-- Resolve the Python index `counters[-bc]` for `bc` between `0` and
`len - 1`: `-0` is position `0`, otherwise position `len - bc`. -/
def pyNegIdx (len bc : Nat) : Nat := if bc == 0 then 0 else len - bc

/-- Source lines `counters[-bc][0] = _flip(...)` and
`counters[-bc][1] = _flip(...)`: negate both components of the pair stored
at one position. -/
def flipAt : List (Bool × Bool) → Nat → List (Bool × Bool)
  | [], _ => []
  | p :: rest, 0 => (!p.1, !p.2) :: rest
  | p :: rest, n + 1 => p :: flipAt rest n

/-- The `for unused in range(2 ** len(gametes))` loop of `_generate_headers`,
parameterised by the remaining iteration count, the current `counters` and
the current `back_counter`.  The source decrements `back_counter` and resets
it to `len(gametes) - 1` when it reaches `-1`; with `bc : Nat` in range
`0 .. len - 1` that is `if bc == 0 then len - 1 else bc - 1`. -/
def genLoop (gametes : List (Char × Char)) :
    Nat → List (Bool × Bool) → Nat → List (List Char)
  | 0, _, _ => []
  | n + 1, counters, bc =>
    buildTerm gametes counters ::
      genLoop gametes n (flipAt counters (pyNegIdx counters.length bc))
        (if bc == 0 then gametes.length - 1 else bc - 1)

/-- The distinct `ValueError`s of the source, one constructor per message. -/
inductive PunnetError where
  /-- Message: the length of the mother genotype must be equal to the father -/
  | mismatchedLength
  /-- Message: the mommy genotype must be even in length -/
  | mommyOddLength
  /-- Message: the daddy genotype must be even in length -/
  | daddyOddLength
  /-- Message: genotype count cannot be less than one -/
  | genoCountLtOne
  /-- Message: genotype length must be even (raised by `_generate_headers`) -/
  | headerOddLength
  /-- Message: column and row headers were not of equal sizes -/
  | headerSizeMismatch
deriving DecidableEq, Repr

/-- Source method `_generate_headers`: gamete generation for a multi-locus
genotype. -/
def generate_headers (geno : List Char) : Except PunnetError (List (List Char)) :=
  if !(is_even geno.length) then .error .headerOddLength
  else
    let gametes := chunk2 geno
    .ok (genLoop gametes (2 ^ gametes.length)
          (gametes.map (fun _ => (true, false))) (gametes.length - 1))

/-- Python `sorted` on a list of characters (ascending code-point order). -/
def pySorted (l : List Char) : List Char := List.insertionSort (· ≤ ·) l

/-- One grid cell: the sorted characters of
`column_headers[x] + row_headers[y]`, joined back into a string. -/
def cellOf (colh rowh : List Char) : List Char := pySorted (colh ++ rowh)

/-- The header computation of `PunnetGenerator.generate` for one parent:
with `geno_count == 1` (monohybrid) the two headers are the two characters
of the genotype, otherwise `_generate_headers` runs.  The source selects the
branch once for both parents with the shared `geno_count`; this function is
that branch applied to one parent. -/
def headersWith (geno_count : Nat) (s : List Char) : Except PunnetError (List (List Char)) :=
  if geno_count = 1 then Except.ok [[s.getD 0 ' '], [s.getD 1 ' ']]
  else generate_headers s

/-- The computational part of `PunnetGenerator.generate`: validation, header
generation and grid construction, up to the point where the source starts
printing.  Returns the grid `data` together with `column_headers` and
`row_headers`.  The source fills `data[y][x]` with nested loops over
`range(grid_size)` (the trailing manual `x += 1` / `y += 1` bookkeeping in
the loop body is dead: the `for` statements rebind both variables). -/
def generate (mommy daddy : List Char) :
    Except PunnetError (List (List (List Char)) × List (List Char) × List (List Char)) :=
  let m := pyStrip mommy
  let d := pyStrip daddy
  if m.length ≠ d.length then .error .mismatchedLength
  else if m.length % 2 ≠ 0 then .error .mommyOddLength
  else if d.length % 2 ≠ 0 then .error .daddyOddLength
  else
    -- `len_mommy / 2` is exact: the length is even at this point
    let geno_count := m.length / 2
    if geno_count < 1 then .error .genoCountLtOne
    else
      match headersWith geno_count m with
      | .error e => .error e
      | .ok column_headers =>
        match headersWith geno_count d with
        | .error e => .error e
        | .ok row_headers =>
          -- the source performs this defensive check twice in a row
          if column_headers.length ≠ row_headers.length then .error .headerSizeMismatch
          else if column_headers.length ≠ row_headers.length then .error .headerSizeMismatch
          else
            let grid_size := column_headers.length
            Except.ok
              ((List.range grid_size).map (fun y =>
                (List.range grid_size).map (fun x =>
                  cellOf (column_headers.getD x []) (row_headers.getD y []))),
               column_headers, row_headers)

/-- One step of the tally loop of `print_stats`: either increment the count
stored for genotype `g` or append a fresh entry with count 1 (a Python dict
keeps insertion order). -/
def tallyAdd (stats : List (List Char × Nat)) (g : List Char) : List (List Char × Nat) :=
  if stats.any (fun p => p.1 == g) then
    stats.map (fun p => if p.1 == g then (p.1, p.2 + 1) else p)
  else stats ++ [(g, 1)]

/-- The tally loop of `print_stats`, traversing the grid row by row. -/
def tally (cells : List (List Char)) : List (List Char × Nat) :=
  cells.foldl tallyAdd []

/-- Source line `OrderedDict(sorted(stats.items()))`: sort the entries.
Python compares
the `(key, value)` tuples, which compares keys first; keys are distinct, so
only the key comparison ever decides. -/
def sortStats (l : List (List Char × Nat)) : List (List Char × Nat) :=
  List.insertionSort (fun p q => p.1 ≤ q.1) l

/-- Source call `Fraction(count, total)`: reduce by the greatest common
divisor.  Both
arguments are positive here, so no sign normalisation is involved. -/
def fracReduce (n d : Nat) : Nat × Nat := (n / Nat.gcd n d, d / Nat.gcd n d)

/-- The data printed by `print_stats`, one line per distinct genotype:
the genotype, its count, and the reduced fraction `count / total_items`. -/
def print_stats (data : List (List (List Char))) : List (List Char × Nat × Nat × Nat) :=
  let stats := sortStats (tally data.flatten)
  let total_items := (stats.map (fun p => p.2)).sum
  stats.map (fun p => (p.1, p.2, fracReduce p.2 total_items))

/-- The lines the program writes to standard output, with the rendering of
the successful case abstracted as a function of the generated data: every
`ValueError` of `generate` is raised before the first write, so a failing
run emits nothing regardless of the renderer. -/
def outputWith
    (render : List (List (List Char)) × List (List Char) × List (List Char) → List String)
    (mommy daddy : List Char) : List String :=
  match generate mommy daddy with
  | .error _ => []
  | .ok out => render out

/-- The error taxonomy of the specification. -/
inductive SpecError where
  | invalidLength
  | mismatchedGenotypeLength
  | invalidLocusCount
deriving DecidableEq, Repr

/-- Map each concrete `ValueError` of the source onto the class the
specification gives it: length-of-a-single-genotype failures (empty or odd)
are `InvalidLengthError`, the mother/father comparison is
`MismatchedGenotypeLengthError`, and the defensive internal checks are
`InvalidLocusCountError`. -/
def specClass : PunnetError → SpecError
  | .mismatchedLength => .mismatchedGenotypeLength
  | .mommyOddLength => .invalidLength
  | .daddyOddLength => .invalidLength
  | .genoCountLtOne => .invalidLength
  | .headerOddLength => .invalidLocusCount
  | .headerSizeMismatch => .invalidLocusCount

/-- The invariant of every stored counter pair: exactly one of the two
entries is 1 (`[1, 0]` or `[0, 1]`). -/
def goodPair (p : Bool × Bool) : Prop := p.2 = !p.1

/-- The grid the success branch of `generate` builds from the two header
sequences (`grid_size = len(column_headers)`). -/
def mkGrid (ch rh : List (List Char)) : List (List (List Char)) :=
  (List.range ch.length).map (fun y =>
    (List.range ch.length).map (fun x =>
      cellOf (ch.getD x []) (rh.getD y [])))

/-- Everything the tally loop guarantees about its dictionary `stats` after
processing the cell list `p`: the keys are distinct, every stored count is
the number of occurrences of its key in `p`, and the keys are exactly the
values occurring in `p`. -/
def TallyInv (s : List (List Char × Nat)) (p : List (List Char)) : Prop :=
  (s.map Prod.fst).Nodup ∧
  (∀ e ∈ s, e.2 = p.count e.1) ∧
  (∀ k : List Char, k ∈ s.map Prod.fst ↔ k ∈ p)

instance {ε α : Type} [DecidableEq ε] [DecidableEq α] : DecidableEq (Except ε α) :=
  fun a b =>
    match a, b with
    | .ok x, .ok y => if h : x = y then isTrue (by rw [h]) else isFalse (by simp [h])
    | .error x, .error y => if h : x = y then isTrue (by rw [h]) else isFalse (by simp [h])
    | .ok _, .error _ => isFalse (by simp)
    | .error _, .ok _ => isFalse (by simp)

instance : DecidableRel (fun (p q : List Char × Nat) => p.1 ≤ q.1) :=
  fun a b => inferInstanceAs (Decidable (a.1 ≤ b.1))

instance : IsTotal (List Char × Nat) (fun p q => p.1 ≤ q.1) :=
  ⟨fun a b => le_total a.1 b.1⟩

instance : IsTrans (List Char × Nat) (fun p q => p.1 ≤ q.1) :=
  ⟨fun _ _ _ h1 h2 => le_trans h1 h2⟩

/-! ### Shape of the generated gamete lists -/

theorem chunk2_length : ∀ l : List Char, (chunk2 l).length = l.length / 2
  | [] => by simp [chunk2]
  | [_] => by simp [chunk2]
  | a :: b :: rest => by
    simp only [chunk2, List.length_cons, chunk2_length rest]
    omega

theorem genLoop_length (g : List (Char × Char)) :
    ∀ (n : Nat) (c : List (Bool × Bool)) (bc : Nat), (genLoop g n c bc).length = n
  | 0, _, _ => rfl
  | n + 1, c, bc => by
    simp only [genLoop, List.length_cons, genLoop_length g n]

theorem goodPair_flip {p : Bool × Bool} (h : goodPair p) : goodPair (!p.1, !p.2) := by
  cases p with
  | mk a b => cases a <;> cases b <;> simp_all [goodPair]

theorem selectChars_length {p : Bool × Bool} (h : goodPair p) (g : Char × Char) :
    (selectChars p g).length = 1 := by
  cases p with
  | mk a b =>
    cases a <;> cases b <;> simp_all [goodPair, selectChars]

theorem foldl_selectChars_length :
    ∀ (zs : List ((Char × Char) × (Bool × Bool))) (acc : List Char),
      (∀ p ∈ zs, goodPair p.2) →
      (zs.foldl (fun acc gc => acc ++ selectChars gc.2 gc.1) acc).length
        = acc.length + zs.length
  | [], acc, _ => by simp
  | z :: rest, acc, h => by
    have hz : goodPair z.2 := h z (List.mem_cons_self z rest)
    have hr : ∀ p ∈ rest, goodPair p.2 := fun p hp => h p (List.mem_cons_of_mem z hp)
    simp only [List.foldl_cons, foldl_selectChars_length rest _ hr,
      List.length_append, selectChars_length hz, List.length_cons]
    omega

theorem buildTerm_length {g : List (Char × Char)} {c : List (Bool × Bool)}
    (hlen : c.length = g.length) (hgood : ∀ p ∈ c, goodPair p) :
    (buildTerm g c).length = g.length := by
  have h : ∀ p ∈ List.zip g c, goodPair p.2 := by
    intro p hp
    exact hgood p.2 (List.of_mem_zip hp).2
  simp only [buildTerm, foldl_selectChars_length (List.zip g c) [] h,
    List.length_nil, List.length_zip, Nat.zero_add, hlen, Nat.min_self]

theorem flipAt_length : ∀ (l : List (Bool × Bool)) (n : Nat), (flipAt l n).length = l.length
  | [], _ => rfl
  | _ :: _, 0 => rfl
  | p :: rest, n + 1 => by simp only [flipAt, List.length_cons, flipAt_length rest n]

theorem flipAt_good : ∀ (l : List (Bool × Bool)) (n : Nat),
    (∀ p ∈ l, goodPair p) → ∀ p ∈ flipAt l n, goodPair p
  | [], _, h => h
  | p :: rest, 0, h => by
    intro q hq
    rcases List.mem_cons.mp hq with hq | hq
    · subst hq
      exact goodPair_flip (h p (List.mem_cons_self p rest))
    · exact h q (List.mem_cons_of_mem p hq)
  | p :: rest, n + 1, h => by
    intro q hq
    rcases List.mem_cons.mp hq with hq | hq
    · subst hq
      exact h q (List.mem_cons_self q rest)
    · exact flipAt_good rest n (fun r hr => h r (List.mem_cons_of_mem p hr)) q hq

theorem genLoop_term_length (g : List (Char × Char)) :
    ∀ (n : Nat) (c : List (Bool × Bool)) (bc : Nat),
      c.length = g.length → (∀ p ∈ c, goodPair p) →
      ∀ t ∈ genLoop g n c bc, t.length = g.length
  | 0, _, _, _, _ => by intro t ht; simp [genLoop] at ht
  | n + 1, c, bc, hlen, hgood => by
    intro t ht
    rcases List.mem_cons.mp ht with ht | ht
    · subst ht
      exact buildTerm_length hlen hgood
    · exact genLoop_term_length g n _ _
        (by rw [flipAt_length, hlen]) (flipAt_good c _ hgood) t ht

/-- Claim C3: for every genotype with `L ≥ 1` loci (even length `2 * L`),
`_generate_headers` returns exactly `2 ^ L` gametes and every gamete has
length `L`. -/
theorem C3_gamete_count_and_length (geno : List Char) (L : Nat)
    (hlen : geno.length = 2 * L) (_hL : 1 ≤ L) :
    ∃ ts, generate_headers geno = Except.ok ts ∧ ts.length = 2 ^ L ∧
      ∀ t ∈ ts, t.length = L := by
  have heven : geno.length % 2 = 0 := by omega
  have hchunk : (chunk2 geno).length = L := by
    rw [chunk2_length, hlen]
    omega
  refine ⟨genLoop (chunk2 geno) (2 ^ (chunk2 geno).length)
    ((chunk2 geno).map (fun _ => (true, false))) ((chunk2 geno).length - 1), ?_, ?_, ?_⟩
  · simp [generate_headers, is_even, heven]
  · rw [genLoop_length, hchunk]
  · intro t ht
    have := genLoop_term_length (chunk2 geno) (2 ^ (chunk2 geno).length)
      ((chunk2 geno).map (fun _ => (true, false))) ((chunk2 geno).length - 1)
      (by simp) ?_ t ht
    · rw [this, hchunk]
    · intro p hp
      rcases List.mem_map.mp hp with ⟨q, _, hq⟩
      rw [← hq]
      rfl

/-- Instantiation of `C3_gamete_count_and_length` at the genotype "AaBb". -/
theorem C3_gamete_count_and_length_witness :
    ∃ ts, generate_headers "AaBb".toList = Except.ok ts ∧ ts.length = 2 ^ 2 ∧
      ∀ t ∈ ts, t.length = 2 :=
  C3_gamete_count_and_length ("AaBb".toList) 2 (by decide) (by decide)

/-! ### Characterisation of `generate` -/

theorem getD_map_range {α : Type} (f : Nat → α) {n i : Nat} (h : i < n) (dflt : α) :
    ((List.range n).map f).getD i dflt = f i := by
  simp [List.getD_eq_getElem?_getD, List.getElem?_map, List.getElem?_range h]

theorem headersWith_ok (L : Nat) (s : List Char) (hs : s.length = 2 * L) (hL : 1 ≤ L) :
    ∃ ch, headersWith L s = Except.ok ch ∧ ch.length = 2 ^ L ∧
      ∀ t ∈ ch, t.length = L := by
  by_cases h1 : L = 1
  · subst h1
    refine ⟨[[s.getD 0 ' '], [s.getD 1 ' ']], by simp [headersWith], by simp, ?_⟩
    intro t ht
    rcases List.mem_cons.mp ht with ht | ht
    · simp [ht]
    · rcases List.mem_cons.mp ht with ht | ht
      · simp [ht]
      · simp at ht
  · rcases C3_gamete_count_and_length s L hs hL with ⟨ts, hts, h2, h3⟩
    exact ⟨ts, by simp [headersWith, h1, hts], h2, h3⟩

theorem generate_error_mismatched {mommy daddy : List Char}
    (h : (pyStrip mommy).length ≠ (pyStrip daddy).length) :
    generate mommy daddy = Except.error PunnetError.mismatchedLength := by
  simp only [generate]
  rw [if_pos h]

theorem generate_error_mommyOdd {mommy daddy : List Char}
    (heq : (pyStrip mommy).length = (pyStrip daddy).length)
    (h : (pyStrip mommy).length % 2 ≠ 0) :
    generate mommy daddy = Except.error PunnetError.mommyOddLength := by
  simp only [generate]
  rw [if_neg (by omega), if_pos h]

theorem generate_error_empty {mommy daddy : List Char}
    (heq : (pyStrip mommy).length = (pyStrip daddy).length)
    (heven : (pyStrip mommy).length % 2 = 0)
    (h : (pyStrip mommy).length = 0) :
    generate mommy daddy = Except.error PunnetError.genoCountLtOne := by
  simp only [generate]
  rw [if_neg (by omega), if_neg (by omega), if_neg (by omega), if_pos (by omega)]

theorem generate_ok_eq {mommy daddy : List Char} {ch rh : List (List Char)}
    (heq : (pyStrip mommy).length = (pyStrip daddy).length)
    (heven : (pyStrip mommy).length % 2 = 0)
    (hpos : 1 ≤ (pyStrip mommy).length / 2)
    (hch : headersWith ((pyStrip mommy).length / 2) (pyStrip mommy) = Except.ok ch)
    (hrh : headersWith ((pyStrip mommy).length / 2) (pyStrip daddy) = Except.ok rh)
    (hlen : ch.length = rh.length) :
    generate mommy daddy = Except.ok (mkGrid ch rh, ch, rh) := by
  simp only [generate]
  rw [if_neg (by omega), if_neg (by omega), if_neg (by omega), if_neg (by omega), hch, hrh]
  simp only [mkGrid]
  rw [if_neg (by omega)]
  rw [if_neg (by omega)]

theorem generate_ok_inv {mommy daddy : List Char}
    {data : List (List (List Char))} {ch rh : List (List Char)}
    (h : generate mommy daddy = Except.ok (data, ch, rh)) :
    (pyStrip mommy).length = (pyStrip daddy).length ∧
    (pyStrip mommy).length % 2 = 0 ∧
    1 ≤ (pyStrip mommy).length / 2 ∧
    ch.length = 2 ^ ((pyStrip mommy).length / 2) ∧
    rh.length = ch.length ∧
    (∀ t ∈ ch, t.length = (pyStrip mommy).length / 2) ∧
    (∀ t ∈ rh, t.length = (pyStrip mommy).length / 2) ∧
    headersWith ((pyStrip mommy).length / 2) (pyStrip mommy) = Except.ok ch ∧
    headersWith ((pyStrip mommy).length / 2) (pyStrip daddy) = Except.ok rh ∧
    data = mkGrid ch rh := by
  by_cases h1 : (pyStrip mommy).length = (pyStrip daddy).length
  case neg => rw [generate_error_mismatched h1] at h; exact absurd h (by simp)
  by_cases h2 : (pyStrip mommy).length % 2 = 0
  case neg => rw [generate_error_mommyOdd h1 h2] at h; exact absurd h (by simp)
  by_cases h3 : 1 ≤ (pyStrip mommy).length / 2
  case neg =>
    rw [generate_error_empty h1 h2 (by omega)] at h
    exact absurd h (by simp)
  have hm2 : (pyStrip mommy).length = 2 * ((pyStrip mommy).length / 2) := by omega
  rcases headersWith_ok _ (pyStrip mommy) hm2 h3 with ⟨ch', hch', hchlen, hchterm⟩
  rcases headersWith_ok _ (pyStrip daddy) (by omega) h3 with ⟨rh', hrh', hrhlen, hrhterm⟩
  rw [generate_ok_eq h1 h2 h3 hch' hrh' (by omega)] at h
  have h4 : mkGrid ch' rh' = data ∧ ch' = ch ∧ rh' = rh := by
    have := Except.ok.inj h
    exact ⟨congrArg Prod.fst this, congrArg (fun p => p.2.1) this,
      congrArg (fun p => p.2.2) this⟩
  rcases h4 with ⟨hdata, hcheq, hrheq⟩
  subst hcheq
  subst hrheq
  exact ⟨h1, h2, h3, hchlen, by omega, hchterm, hrhterm, hch', hrh', hdata.symm⟩

/-- Claim C4: a successful cross of two valid equal-length genotypes with
`L` loci each produces a square grid of size `2 ^ L * 2 ^ L`, and the cell
at `[row][col]` is the ascending character sort of the mother (column)
gamete at index `col` concatenated with the father (row) gamete at index
`row`. -/
theorem C4_grid_shape_and_cells (mommy daddy : List Char)
    (data : List (List (List Char))) (ch rh : List (List Char))
    (h : generate mommy daddy = Except.ok (data, ch, rh)) :
    data.length = 2 ^ ((pyStrip mommy).length / 2) ∧
    (∀ row ∈ data, row.length = 2 ^ ((pyStrip mommy).length / 2)) ∧
    ∀ y x, y < 2 ^ ((pyStrip mommy).length / 2) → x < 2 ^ ((pyStrip mommy).length / 2) →
      (data.getD y []).getD x [] = pySorted (ch.getD x [] ++ rh.getD y []) := by
  rcases generate_ok_inv h with ⟨-, -, -, hchlen, -, -, -, -, -, hdata⟩
  subst hdata
  refine ⟨by simp [mkGrid, hchlen], ?_, ?_⟩
  · intro row hrow
    rcases List.mem_map.mp hrow with ⟨y, -, hy⟩
    rw [← hy]
    simp [hchlen]
  · intro y x hy hx
    rw [mkGrid, getD_map_range _ (by rw [hchlen]; exact hy),
      getD_map_range _ (by rw [hchlen]; exact hx)]
    rfl

/-- Instantiation of `C4_grid_shape_and_cells` at the monohybrid cross
"Aa" x "Aa": the off-diagonal cell is the sorted concatenation of the
column gamete "a" and the row gamete "A". -/
theorem C4_grid_shape_and_cells_witness :
    ([["AA".toList, "Aa".toList], ["Aa".toList, "aa".toList]].getD 0 []).getD 1 []
      = pySorted (['a'] ++ ['A']) :=
  (C4_grid_shape_and_cells "Aa".toList "Aa".toList
    [["AA".toList, "Aa".toList], ["Aa".toList, "aa".toList]]
    [['A'], ['a']] [['A'], ['a']] (by rfl)).2.2 0 1 (by decide) (by decide)

/-- Claim C9: all validation precedes any output.  If the trimmed genotypes
differ in length the run fails with the mismatched-length error; if they
agree but are empty or of odd length it fails with an error the
specification classes as invalid-length; in every failure case the program
emits zero output lines, whatever the renderer of the successful case is. -/
theorem C9_validation_before_output (mommy daddy : List Char)
    (render : List (List (List Char)) × List (List Char) × List (List Char) → List String) :
    ((pyStrip mommy).length ≠ (pyStrip daddy).length →
      generate mommy daddy = Except.error PunnetError.mismatchedLength ∧
      specClass PunnetError.mismatchedLength = SpecError.mismatchedGenotypeLength ∧
      outputWith render mommy daddy = []) ∧
    ((pyStrip mommy).length = (pyStrip daddy).length →
      ((pyStrip mommy).length = 0 ∨ (pyStrip mommy).length % 2 = 1) →
      ∃ e, generate mommy daddy = Except.error e ∧ specClass e = SpecError.invalidLength ∧
        outputWith render mommy daddy = []) := by
  constructor
  · intro h
    have hgen := generate_error_mismatched h
    exact ⟨hgen, rfl, by simp [outputWith, hgen]⟩
  · intro heq h
    rcases h with h | h
    · have hgen := generate_error_empty heq (by omega) h
      exact ⟨PunnetError.genoCountLtOne, hgen, rfl, by simp [outputWith, hgen]⟩
    · have hgen := generate_error_mommyOdd heq (by omega)
      exact ⟨PunnetError.mommyOddLength, hgen, rfl, by simp [outputWith, hgen]⟩

/-- Instantiation of `C9_validation_before_output`: the mismatched pair
"Aa" / "AaBb" and the odd pair "A" / "A", each with zero output lines. -/
theorem C9_validation_before_output_witness :
    (generate "Aa".toList "AaBb".toList = Except.error PunnetError.mismatchedLength ∧
      specClass PunnetError.mismatchedLength = SpecError.mismatchedGenotypeLength ∧
      outputWith (fun _ => ["table"]) "Aa".toList "AaBb".toList = []) ∧
    (∃ e, generate "A".toList "A".toList = Except.error e ∧
      specClass e = SpecError.invalidLength ∧
      outputWith (fun _ => ["table"]) "A".toList "A".toList = []) :=
  ⟨(C9_validation_before_output "Aa".toList "AaBb".toList (fun _ => ["table"])).1 (by decide),
   (C9_validation_before_output "A".toList "A".toList (fun _ => ["table"])).2
     (by decide) (Or.inr (by decide))⟩

/-! ### The tally of `print_stats` -/

theorem tallyInv_nil : TallyInv [] [] := by
  refine ⟨List.nodup_nil, ?_, ?_⟩ <;> simp

theorem tallyInv_step {s : List (List Char × Nat)} {p : List (List Char)}
    (h : TallyInv s p) (g : List Char) : TallyInv (tallyAdd s g) (p ++ [g]) := by
  rcases h with ⟨hnd, hcount, hmem⟩
  by_cases hany : s.any (fun q => q.1 == g) = true
  · rcases List.any_eq_true.mp hany with ⟨q, hq, hq2⟩
    have hgp : g ∈ p := by
      rw [← hmem]
      exact List.mem_map.mpr ⟨q, hq, by simpa using hq2⟩
    have hkeys : (tallyAdd s g).map Prod.fst = s.map Prod.fst := by
      rw [tallyAdd, if_pos hany, List.map_map]
      refine List.map_congr_left ?_
      intro e _
      by_cases he : e.1 == g
      · simp only [Function.comp, he, if_pos]
      · simp only [Function.comp, he]
        simp
    refine ⟨by rw [hkeys]; exact hnd, ?_, ?_⟩
    · intro e he
      rw [tallyAdd, if_pos hany] at he
      rcases List.mem_map.mp he with ⟨q', hq', hq'e⟩
      by_cases hq'g : q'.1 == g
      · rw [← hq'e]
        simp only [hq'g, if_pos]
        have : q'.1 = g := by simpa using hq'g
        simp [List.count_append, hcount q' hq', this]
      · rw [← hq'e]
        simp only [hq'g]
        simp only [Bool.false_eq_true, if_false]
        have : q'.1 ≠ g := by simpa using hq'g
        simp [List.count_append, hcount q' hq', List.count_singleton, this]
    · intro k
      rw [hkeys, hmem]
      simp only [List.mem_append, List.mem_singleton]
      constructor
      · exact fun hk => Or.inl hk
      · rintro (hk | rfl)
        · exact hk
        · exact hgp
  · have hgs : g ∉ s.map Prod.fst := by
      intro hk
      rcases List.mem_map.mp hk with ⟨q, hq, hqg⟩
      exact hany (List.any_eq_true.mpr ⟨q, hq, by simp [hqg]⟩)
    have hgp : g ∉ p := fun hk => hgs ((hmem g).mpr hk)
    have hkeys : (tallyAdd s g).map Prod.fst = s.map Prod.fst ++ [g] := by
      rw [tallyAdd, if_neg hany, List.map_append]
      rfl
    refine ⟨?_, ?_, ?_⟩
    · rw [hkeys]
      refine List.Nodup.append hnd (by simp) ?_
      intro a ha hb
      rw [List.mem_singleton] at hb
      subst hb
      exact hgs ha
    · intro e he
      rw [tallyAdd, if_neg hany, List.mem_append] at he
      rcases he with he | he
      · have hne : e.1 ≠ g := by
          intro hfalse
          exact hgs (hfalse ▸ List.mem_map.mpr ⟨e, he, rfl⟩)
        simp [List.count_append, List.count_singleton, hne, hcount e he]
      · rw [List.mem_singleton] at he
        subst he
        simp [List.count_append, List.count_eq_zero.mpr hgp]
    · intro k
      rw [hkeys]
      simp only [List.mem_append, List.mem_singleton, hmem]

theorem tallyInv_foldl :
    ∀ (q : List (List Char)) (s : List (List Char × Nat)) (p : List (List Char)),
      TallyInv s p → TallyInv (List.foldl tallyAdd s q) (p ++ q)
  | [], s, p, h => by simpa using h
  | g :: rest, s, p, h => by
    have := tallyInv_foldl rest (tallyAdd s g) (p ++ [g]) (tallyInv_step h g)
    simpa [List.append_assoc] using this

theorem tally_inv (cells : List (List Char)) : TallyInv (tally cells) cells := by
  simpa using tallyInv_foldl cells [] [] tallyInv_nil

theorem tally_keys_nodup (cells : List (List Char)) :
    ((tally cells).map Prod.fst).Nodup := (tally_inv cells).1

theorem tally_count (cells : List (List Char)) :
    ∀ e ∈ tally cells, e.2 = cells.count e.1 := (tally_inv cells).2.1

theorem tally_mem_keys (cells : List (List Char)) (k : List Char) :
    k ∈ (tally cells).map Prod.fst ↔ k ∈ cells := (tally_inv cells).2.2 k

theorem increment_sum (g : List Char) :
    ∀ s : List (List Char × Nat), (s.map Prod.fst).Nodup →
      s.any (fun q => q.1 == g) = true →
      ((s.map (fun p => if p.1 == g then (p.1, p.2 + 1) else p)).map
          (fun p => p.2)).sum
        = (s.map (fun p => p.2)).sum + 1
  | [], _, hany => by simp at hany
  | p :: rest, hnd, hany => by
    by_cases hp : p.1 == g
    · have hpg : p.1 = g := by simpa using hp
      have hrest : ∀ e ∈ rest, (e.1 == g) = false := by
        intro e he
        have : p.1 ∉ rest.map Prod.fst := by
          have h0 : (p.1 :: rest.map Prod.fst).Nodup := by simpa using hnd
          exact (List.nodup_cons.mp h0).1
        by_contra hcon
        simp only [Bool.not_eq_false, beq_iff_eq] at hcon
        exact this (hpg ▸ hcon ▸ List.mem_map.mpr ⟨e, he, rfl⟩)
      have hmap : rest.map (fun p => if p.1 == g then (p.1, p.2 + 1) else p) = rest := by
        refine List.map_congr_left ?_ |>.trans (List.map_id rest)
        intro e he
        simp [hrest e he]
      simp only [List.map_cons, hp, if_pos, hmap, List.sum_cons]
      omega
    · have hany' : rest.any (fun q => q.1 == g) = true := by
        rcases List.any_eq_true.mp hany with ⟨q, hq, hq2⟩
        rcases List.mem_cons.mp hq with hq | hq
        · exact absurd (hq ▸ hq2) (by simpa using hp)
        · exact List.any_eq_true.mpr ⟨q, hq, hq2⟩
      have hnd' : (rest.map Prod.fst).Nodup := (List.pairwise_cons.mp hnd).2
      simp only [List.map_cons, hp, Bool.false_eq_true, if_false, List.sum_cons,
        increment_sum g rest hnd' hany']
      omega

theorem tallyAdd_sum {s : List (List Char × Nat)} (hnd : (s.map Prod.fst).Nodup)
    (g : List Char) :
    ((tallyAdd s g).map (fun p => p.2)).sum = (s.map (fun p => p.2)).sum + 1 := by
  by_cases hany : s.any (fun q => q.1 == g) = true
  · rw [tallyAdd, if_pos hany]
    exact increment_sum g s hnd hany
  · rw [tallyAdd, if_neg hany]
    simp

theorem tally_sum_foldl :
    ∀ (q : List (List Char)) (s : List (List Char × Nat)) (p : List (List Char)),
      TallyInv s p →
      ((List.foldl tallyAdd s q).map (fun e => e.2)).sum
        = (s.map (fun e => e.2)).sum + q.length
  | [], _, _, _ => by simp
  | g :: rest, s, p, h => by
    have hstep := tallyInv_step h g
    simp only [List.foldl_cons, tally_sum_foldl rest (tallyAdd s g) (p ++ [g]) hstep,
      tallyAdd_sum h.1 g, List.length_cons]
    omega

/-- The total of the tallied counts is the number of cells. -/
theorem tally_sum (cells : List (List Char)) :
    ((tally cells).map (fun p => p.2)).sum = cells.length := by
  simpa using tally_sum_foldl cells [] [] tallyInv_nil

theorem sortStats_perm (l : List (List Char × Nat)) : (sortStats l).Perm l :=
  List.perm_insertionSort _ l

theorem sortStats_sorted (l : List (List Char × Nat)) :
    List.Sorted (fun p q => p.1 ≤ q.1) (sortStats l) :=
  List.sorted_insertionSort _ l

/-- After sorting a tally, the keys are strictly increasing. -/
theorem sortStats_tally_strict (cells : List (List Char)) :
    (sortStats (tally cells)).Pairwise (fun p q => p.1 < q.1) := by
  have hnd : ((sortStats (tally cells)).map Prod.fst).Nodup := by
    rw [((sortStats_perm (tally cells)).map Prod.fst).nodup_iff]
    exact tally_keys_nodup cells
  have hne : (sortStats (tally cells)).Pairwise (fun p q => p.1 ≠ q.1) :=
    List.pairwise_map.mp hnd
  have hle : (sortStats (tally cells)).Pairwise (fun p q => p.1 ≤ q.1) :=
    sortStats_sorted (tally cells)
  exact (hle.and hne).imp (fun h => lt_of_le_of_ne h.1 h.2)

/-! ### Symmetry machinery for the mother/father swap -/

theorem pySorted_comm (a b : List Char) : pySorted (a ++ b) = pySorted (b ++ a) := by
  refine List.eq_of_perm_of_sorted ?_ (List.sorted_insertionSort _ _)
    (List.sorted_insertionSort _ _)
  have h1 := List.perm_insertionSort (fun x1 x2 : Char => x1 ≤ x2) (a ++ b)
  have h2 := List.perm_insertionSort (fun x1 x2 : Char => x1 ≤ x2) (b ++ a)
  exact h1.trans (List.perm_append_comm.trans h2.symm)

theorem cellOf_comm (a b : List Char) : cellOf a b = cellOf b a :=
  pySorted_comm a b

theorem sum_map_add {α : Type} (f g : α → Nat) :
    ∀ l : List α, (l.map (fun x => f x + g x)).sum = (l.map f).sum + (l.map g).sum
  | [] => by simp
  | x :: rest => by
    simp only [List.map_cons, List.sum_cons, sum_map_add f g rest]
    omega

theorem sum_range_swap (f : Nat → Nat → Nat) (m : Nat) :
    ∀ n : Nat,
      ((List.range n).map (fun y => ((List.range m).map (fun x => f x y)).sum)).sum
        = ((List.range m).map (fun x => ((List.range n).map (fun y => f x y)).sum)).sum
  | 0 => by
    simp
  | n + 1 => by
    rw [List.range_succ, List.map_append, List.sum_append]
    have hrhs : (List.range m).map (fun x => ((List.range n ++ [n]).map (fun y => f x y)).sum)
        = (List.range m).map (fun x =>
            ((List.range n).map (fun y => f x y)).sum + f x n) := by
      refine List.map_congr_left ?_
      intro x _
      rw [List.map_append, List.sum_append]
      simp
    rw [hrhs, sum_map_add, ← sum_range_swap f m n]
    simp

theorem count_map_sum {α : Type} (f : α → List Char) (k : List Char) :
    ∀ l : List α, (l.map f).count k = (l.map (fun x => if f x = k then 1 else 0)).sum
  | [] => by simp
  | x :: rest => by
    simp only [List.map_cons, List.count_cons, List.sum_cons, count_map_sum f k rest,
      beq_iff_eq]
    omega

theorem count_flatten_mkGrid (ch rh : List (List Char)) (k : List Char) :
    (mkGrid ch rh).flatten.count k
      = ((List.range ch.length).map (fun y => ((List.range ch.length).map
          (fun x => if cellOf (ch.getD x []) (rh.getD y []) = k then 1 else 0)).sum)).sum := by
  rw [List.count_flatten, mkGrid, List.map_map]
  refine congrArg List.sum (List.map_congr_left ?_)
  intro y _
  exact count_map_sum _ k _

theorem mkGrid_count_swap (ch rh : List (List Char)) (hlen : rh.length = ch.length)
    (k : List Char) :
    (mkGrid rh ch).flatten.count k = (mkGrid ch rh).flatten.count k := by
  rw [count_flatten_mkGrid, count_flatten_mkGrid, hlen]
  have hcomm : (List.range ch.length).map (fun y => ((List.range ch.length).map
        (fun x => if cellOf (rh.getD x []) (ch.getD y []) = k then 1 else 0)).sum)
      = (List.range ch.length).map (fun y => ((List.range ch.length).map
        (fun x => if cellOf (ch.getD y []) (rh.getD x []) = k then 1 else 0)).sum) := by
    refine List.map_congr_left ?_
    intro y _
    refine congrArg List.sum (List.map_congr_left ?_)
    intro x _
    rw [cellOf_comm]
  rw [hcomm]
  exact sum_range_swap (fun x y => if cellOf (ch.getD y []) (rh.getD x []) = k then 1 else 0)
    ch.length ch.length

/-- Full description of tally membership: the entries are exactly the
distinct cell values paired with their occurrence counts. -/
theorem tally_mem_iff (cells : List (List Char)) (e : List Char × Nat) :
    e ∈ tally cells ↔ e.1 ∈ cells ∧ e.2 = cells.count e.1 := by
  constructor
  · intro he
    exact ⟨(tally_mem_keys cells e.1).mp (List.mem_map.mpr ⟨e, he, rfl⟩),
      tally_count cells e he⟩
  · rintro ⟨hk, hc⟩
    have hkeys : e.1 ∈ (tally cells).map Prod.fst := (tally_mem_keys cells e.1).mpr hk
    rcases List.mem_map.mp hkeys with ⟨e', he', hfst⟩
    have he2 : e' = e := by
      have hc' := tally_count cells e' he'
      cases e with
      | mk a c =>
        cases e' with
        | mk a' c' =>
          simp only at hfst
          subst hfst
          simp only at hc'
          simp only at hc
          rw [hc, ← hc']
    rw [← he2]
    exact he'

theorem pairwise_keyLt_nodup {l : List (List Char × Nat)}
    (h : l.Pairwise (fun p q => p.1 < q.1)) : l.Nodup :=
  h.imp (fun hlt heq => absurd (heq ▸ hlt) (lt_irrefl _))

theorem eq_of_perm_of_keyLt :
    ∀ {l1 l2 : List (List Char × Nat)}, l1.Perm l2 →
      l1.Pairwise (fun p q => p.1 < q.1) → l2.Pairwise (fun p q => p.1 < q.1) →
      l1 = l2
  | [], l2, hp, _, _ => (List.Perm.eq_nil hp.symm).symm
  | p :: t1, [], hp, _, _ => absurd (List.Perm.eq_nil hp) (by simp)
  | p :: t1, q :: t2, hp, h1, h2 => by
    by_cases hpq : p = q
    · subst hpq
      rw [eq_of_perm_of_keyLt (hp.cons_inv) (List.pairwise_cons.mp h1).2
        (List.pairwise_cons.mp h2).2]
    · exfalso
      have hpin : p ∈ q :: t2 := hp.subset (List.mem_cons_self p t1)
      have hqin : q ∈ p :: t1 := hp.symm.subset (List.mem_cons_self q t2)
      have hpt2 : p ∈ t2 := by
        rcases List.mem_cons.mp hpin with h | h
        · exact absurd h hpq
        · exact h
      have hqt1 : q ∈ t1 := by
        rcases List.mem_cons.mp hqin with h | h
        · exact absurd h.symm hpq
        · exact h
      have hlt1 : p.1 < q.1 := (List.pairwise_cons.mp h1).1 q hqt1
      have hlt2 : q.1 < p.1 := (List.pairwise_cons.mp h2).1 p hpt2
      exact absurd hlt1 (not_lt_of_lt hlt2)

/-- The sorted tally is determined by the occurrence-count function of the
cell list. -/
theorem sortStats_tally_ext (cells1 cells2 : List (List Char))
    (hcount : ∀ k, cells1.count k = cells2.count k) :
    sortStats (tally cells1) = sortStats (tally cells2) := by
  have hmemc : ∀ k : List Char, k ∈ cells1 ↔ k ∈ cells2 := by
    intro k
    rw [← List.count_pos_iff, ← List.count_pos_iff, hcount]
  have hmem : ∀ e : List Char × Nat,
      e ∈ sortStats (tally cells1) ↔ e ∈ sortStats (tally cells2) := by
    intro e
    rw [(sortStats_perm _).mem_iff, (sortStats_perm _).mem_iff,
      tally_mem_iff, tally_mem_iff, hcount, hmemc]
  exact eq_of_perm_of_keyLt
    ((List.perm_ext_iff_of_nodup
        (pairwise_keyLt_nodup (sortStats_tally_strict cells1))
        (pairwise_keyLt_nodup (sortStats_tally_strict cells2))).mpr hmem)
    (sortStats_tally_strict cells1) (sortStats_tally_strict cells2)

theorem mkGrid_flatten_length (ch rh : List (List Char)) :
    (mkGrid ch rh).flatten.length = ch.length * ch.length := by
  rw [List.length_flatten, mkGrid, List.map_map]
  have h1 : (List.map
      (List.length ∘ fun y => (List.range ch.length).map
        (fun x => cellOf (ch.getD x []) (rh.getD y []))) (List.range ch.length))
      = (List.range ch.length).map (Function.const Nat ch.length) := by
    refine List.map_congr_left ?_
    intro y _
    simp [Function.comp]
  rw [h1, List.map_const, List.sum_replicate, List.length_range, smul_eq_mul]

/-- Claim C6: the occurrence counts of the aggregated statistics of a grid
produced by a cross sum to `grid_size ^ 2`, where `grid_size` is the number
of column headers (equal to the number of grid rows). -/
theorem C6_tally_conservation (mommy daddy : List Char)
    (data : List (List (List Char))) (ch rh : List (List Char))
    (h : generate mommy daddy = Except.ok (data, ch, rh)) :
    ((print_stats data).map (fun e => e.2.1)).sum = ch.length ^ 2 ∧
    data.length = ch.length := by
  rcases generate_ok_inv h with ⟨-, -, -, -, -, -, -, -, -, hdata⟩
  subst hdata
  constructor
  · have h1 : (print_stats (mkGrid ch rh)).map (fun e => e.2.1)
        = (sortStats (tally (mkGrid ch rh).flatten)).map (fun p => p.2) := by
      simp only [print_stats, List.map_map]
      rfl
    rw [h1, ((sortStats_perm (tally (mkGrid ch rh).flatten)).map (fun p => p.2)).sum_eq,
      tally_sum, mkGrid_flatten_length, Nat.pow_two]
  · simp [mkGrid]

/-- Instantiation of `C6_tally_conservation` at the cross "Aa" x "Aa":
1 + 2 + 1 = 2 ^ 2 over a 2-row grid. -/
theorem C6_tally_conservation_witness :
    ((print_stats [["AA".toList, "Aa".toList], ["Aa".toList, "aa".toList]]).map
        (fun e => e.2.1)).sum = ([['A'], ['a']] : List (List Char)).length ^ 2 ∧
    ([["AA".toList, "Aa".toList], ["Aa".toList, "aa".toList]] :
        List (List (List Char))).length = ([['A'], ['a']] : List (List Char)).length :=
  C6_tally_conservation "Aa".toList "Aa".toList
    [["AA".toList, "Aa".toList], ["Aa".toList, "aa".toList]]
    [['A'], ['a']] [['A'], ['a']] (by rfl)

/-- Claim C7: every aggregated entry carries a fraction with positive
denominator, numerator and denominator coprime (reduced via the exact
integer gcd, no floating point anywhere in the embedding), and the reduced
fraction equals the exact ratio `count / total` in the cross-multiplication
sense `num * total = count * den`. -/
theorem C7_fractions_exact_and_reduced (mommy daddy : List Char)
    (data : List (List (List Char))) (ch rh : List (List Char))
    (h : generate mommy daddy = Except.ok (data, ch, rh)) :
    ∀ e ∈ print_stats data,
      0 < e.2.2.2 ∧ Nat.gcd e.2.2.1 e.2.2.2 = 1 ∧
      e.2.2.1 * data.flatten.length = e.2.1 * e.2.2.2 := by
  rcases generate_ok_inv h with ⟨-, -, -, hchlen, -, -, -, -, -, hdata⟩
  subst hdata
  intro e he
  have hTpos : 0 < (mkGrid ch rh).flatten.length := by
    rw [mkGrid_flatten_length]
    have : 0 < ch.length := by
      rw [hchlen]
      exact Nat.pos_pow_of_pos _ (by omega)
    exact Nat.mul_pos this this
  simp only [print_stats] at he
  rcases List.mem_map.mp he with ⟨p, hp, hpe⟩
  have hsum : ((sortStats (tally (mkGrid ch rh).flatten)).map (fun p => p.2)).sum
      = (mkGrid ch rh).flatten.length := by
    rw [((sortStats_perm (tally (mkGrid ch rh).flatten)).map (fun p => p.2)).sum_eq,
      tally_sum]
  rw [← hpe]
  simp only [fracReduce, hsum]
  set T := (mkGrid ch rh).flatten.length with hT
  set g := Nat.gcd p.2 T with hg
  have hgpos : 0 < g := Nat.gcd_pos_of_pos_right _ hTpos
  refine ⟨Nat.div_pos (Nat.le_of_dvd hTpos (Nat.gcd_dvd_right _ _)) hgpos, ?_, ?_⟩
  · exact Nat.coprime_div_gcd_div_gcd hgpos
  · obtain ⟨c', hc⟩ := Nat.gcd_dvd_left p.2 T
    obtain ⟨T', hT'⟩ := Nat.gcd_dvd_right p.2 T
    rw [← hg] at hc hT'
    calc p.2 / g * T = g * c' / g * T := by rw [← hc]
    _ = c' * T := by rw [Nat.mul_div_cancel_left c' hgpos]
    _ = c' * (g * T') := by rw [← hT']
    _ = g * c' * T' := by ring
    _ = p.2 * T' := by rw [← hc]
    _ = p.2 * (g * T' / g) := by rw [Nat.mul_div_cancel_left T' hgpos]
    _ = p.2 * (T / g) := by rw [← hT']

/-- Instantiation of `C7_fractions_exact_and_reduced` at the entry
`Aa: 2 (1/2)` of the monohybrid cross. -/
theorem C7_fractions_exact_and_reduced_witness :
    0 < 2 ∧ Nat.gcd 1 2 = 1 ∧
    1 * ([["AA".toList, "Aa".toList], ["Aa".toList, "aa".toList]] :
          List (List (List Char))).flatten.length = 2 * 2 :=
  C7_fractions_exact_and_reduced "Aa".toList "Aa".toList
    [["AA".toList, "Aa".toList], ["Aa".toList, "aa".toList]]
    [['A'], ['a']] [['A'], ['a']] (by rfl)
    ("Aa".toList, 2, 1, 2) (by decide)

/-- Claim C8: the aggregated statistics of any grid are emitted in strictly
ascending lexicographic (code-point, case-sensitive) order of the genotype
string; the computation is a pure function, hence identical across runs. -/
theorem C8_stats_strictly_sorted (data : List (List (List Char))) :
    (print_stats data).Pairwise (fun a b => a.1 < b.1) := by
  have h := sortStats_tally_strict data.flatten
  simp only [print_stats]
  rw [List.pairwise_map]
  exact h

/-- Claim C1: for a fully heterozygous genotype the 2^L generated gametes are
claimed to be pairwise distinct.  The code violates this: on "AaBbCc" (three
heterozygous loci) it emits "ABC" twice (positions 0 and 6) and "AbC" twice
(positions 1 and 7), and never emits "ABc" or "abC"; the counter walk of
`_generate_headers` has period 6, not 8. -/
theorem C1_heterozygous_gametes_duplicated :
    ((chunk2 "AaBbCc".toList).all (fun p => p.1 != p.2)) = true ∧
    generate_headers "AaBbCc".toList =
      Except.ok ["ABC".toList, "AbC".toList, "Abc".toList, "abc".toList,
                 "aBc".toList, "aBC".toList, "ABC".toList, "AbC".toList] ∧
    List.count "ABC".toList
      ["ABC".toList, "AbC".toList, "Abc".toList, "abc".toList,
       "aBc".toList, "aBC".toList, "ABC".toList, "AbC".toList] = 2 := by
  refine ⟨by decide, by decide, by decide⟩

/-- Claim C2 (counterexample): gamete generation is claimed to enumerate in
binary-counter order, which on "AaBb" would be AB, Ab, aB, ab.  The code
instead produces AB, Ab, ab, aB (matching the sample output in the source
docstring): the gamete at position 2 is "ab", not the claimed "aB". -/
theorem C2_not_binary_counter_order :
    generate_headers "AaBb".toList =
      Except.ok ["AB".toList, "Ab".toList, "ab".toList, "aB".toList] ∧
    (("ab".toList : List Char) == "aB".toList) = false := by
  refine ⟨by decide, by decide⟩

/-- Claim C2 (amended): for every 2-locus genotype with characters
`a b c d`, gamete generation starts from the first allele of each locus and
after each emission toggles the allele choice of one locus, cycling through
the loci in the order second, first, second, first; the resulting sequence
is `[ac, ad, bd, bc]` - for "AaBb" that is AB, Ab, ab, aB. -/
theorem C2_two_locus_gamete_order (a b c d : Char) :
    generate_headers [a, b, c, d] = Except.ok [[a, c], [a, d], [b, d], [b, c]] := by
  simp [generate_headers, is_even, chunk2, genLoop, buildTerm, selectChars, flipAt, pyNegIdx]

/-- Instantiation of `C2_two_locus_gamete_order` at the genotype "AaBb". -/
theorem C2_two_locus_gamete_order_witness :
    generate_headers "AaBb".toList =
      Except.ok ["AB".toList, "Ab".toList, "ab".toList, "aB".toList] :=
  C2_two_locus_gamete_order 'A' 'a' 'B' 'b'

/-- Claim C5: crossing "Aa" with "Aa" yields gametes A, a for each parent,
the grid AA, Aa / Aa, aa, and statistics AA: 1 (1/4), Aa: 2 (1/2),
aa: 1 (1/4). -/
theorem C5_monohybrid_scenario :
    generate "Aa".toList "Aa".toList =
      Except.ok ([["AA".toList, "Aa".toList], ["Aa".toList, "aa".toList]],
                 [['A'], ['a']], [['A'], ['a']]) ∧
    print_stats [["AA".toList, "Aa".toList], ["Aa".toList, "aa".toList]] =
      [("AA".toList, 1, 1, 4), ("Aa".toList, 2, 1, 2), ("aa".toList, 1, 1, 4)] := by
  refine ⟨by rfl, by rfl⟩

/-- Instantiation of `C8_stats_strictly_sorted` at the monohybrid grid. -/
theorem C8_stats_strictly_sorted_witness :
    (print_stats [["AA".toList, "Aa".toList], ["Aa".toList, "aa".toList]]).Pairwise
      (fun a b => a.1 < b.1) :=
  C8_stats_strictly_sorted [["AA".toList, "Aa".toList], ["Aa".toList, "aa".toList]]

/-- Claim C10: swapping the mother and father arguments of a successful
cross succeeds with the header sequences exchanged, transposes the offspring
grid (cell `[y][x]` of the swapped grid is cell `[x][y]` of the original,
because the sorted-character cell value is symmetric in the two gametes),
and leaves the aggregated statistics - entries, counts, fractions and output
order - unchanged. -/
theorem C10_swap_transposes_grid_and_preserves_stats (mommy daddy : List Char)
    (data : List (List (List Char))) (ch rh : List (List Char))
    (h : generate mommy daddy = Except.ok (data, ch, rh)) :
    ∃ data2, generate daddy mommy = Except.ok (data2, rh, ch) ∧
      data2.length = data.length ∧
      (∀ row ∈ data2, row.length = data.length) ∧
      (∀ y x, y < data.length → x < data.length →
        (data2.getD y []).getD x [] = (data.getD x []).getD y []) ∧
      print_stats data2 = print_stats data := by
  rcases generate_ok_inv h with ⟨h1, h2, h3, hchlen, hrhlen, -, -, hch, hrh, hdata⟩
  have h1' : (pyStrip daddy).length = (pyStrip mommy).length := h1.symm
  have hdiv : (pyStrip daddy).length / 2 = (pyStrip mommy).length / 2 := by rw [h1']
  have hch' : headersWith ((pyStrip daddy).length / 2) (pyStrip daddy) = Except.ok rh := by
    rw [hdiv]
    exact hrh
  have hrh' : headersWith ((pyStrip daddy).length / 2) (pyStrip mommy) = Except.ok ch := by
    rw [hdiv]
    exact hch
  have hgen2 : generate daddy mommy = Except.ok (mkGrid rh ch, rh, ch) :=
    generate_ok_eq h1' (by omega) (by omega) hch' hrh' (by omega)
  subst hdata
  refine ⟨mkGrid rh ch, hgen2, by simp [mkGrid, hrhlen], ?_, ?_, ?_⟩
  · intro row hrow
    rcases List.mem_map.mp hrow with ⟨y, -, hy⟩
    rw [← hy]
    simp [mkGrid, hrhlen]
  · intro y x hy hx
    have hdl : (mkGrid ch rh).length = ch.length := by simp [mkGrid]
    rw [hdl] at hy hx
    rw [mkGrid, mkGrid, getD_map_range _ (by rw [hrhlen]; exact hy),
      getD_map_range _ (by rw [hrhlen]; exact hx),
      getD_map_range _ hx, getD_map_range _ hy]
    exact cellOf_comm _ _
  · have hst : sortStats (tally (mkGrid rh ch).flatten)
        = sortStats (tally (mkGrid ch rh).flatten) :=
      sortStats_tally_ext _ _ (fun k => mkGrid_count_swap ch rh (by omega) k)
    simp only [print_stats, hst]

/-- Instantiation of `C10_swap_transposes_grid_and_preserves_stats`:
crossing "Aa" with "AA" and "AA" with "Aa" yields transposed grids with
identical statistics. -/
theorem C10_swap_witness :
    print_stats [["AA".toList, "AA".toList], ["Aa".toList, "Aa".toList]]
      = print_stats [["AA".toList, "Aa".toList], ["AA".toList, "Aa".toList]] := by
  obtain ⟨data2, hgen, -, -, -, hstats⟩ :=
    C10_swap_transposes_grid_and_preserves_stats "Aa".toList "AA".toList
      [["AA".toList, "Aa".toList], ["AA".toList, "Aa".toList]]
      [['A'], ['a']] [['A'], ['A']] (by rfl)
  have h2 : generate "AA".toList "Aa".toList =
      Except.ok ([["AA".toList, "AA".toList], ["Aa".toList, "Aa".toList]],
        [['A'], ['A']], [['A'], ['a']]) := by rfl
  rw [h2] at hgen
  have hdata2 : [["AA".toList, "AA".toList], ["Aa".toList, "Aa".toList]] = data2 :=
    congrArg Prod.fst (Except.ok.inj hgen)
  rw [hdata2]
  exact hstats

end Punnet
